import Mathlib

/-!
Shallow embedding of the timeline-derivation core of `Streamyanbal_new.py`.

Timestamps are modelled in whole minutes: a calendar date is a day number
`d : Nat` and a time of day is a minute count within the day, so the absolute
timestamp of `d` at minute `m` is `d * 1440 + m`.  The pandas parsing steps
(`pd.to_datetime(..., errors='coerce')`) yield `NaT` on failure, modelled as
`Option`: a raw row carries the parse results of its date and of its two
time-of-day strings, `none` standing for an unparsable field.
-/

namespace Streamyanbal

/-- A raw input row (one line of the loaded spreadsheet), with the parse
results of its date and time fields: `none` models pandas `NaT`, i.e. an
unparsable string under `errors='coerce'`. -/
structure Fila where
  nombre : String
  workspace : String
  fecha : Option Nat
  horaInicio : Option Nat
  horaFin : Option Nat
deriving DecidableEq, Repr

/-- A normalized execution row, after the `Inicio`/`Fin` columns have been
built and invalid rows dropped (lines 58-69 of the source). -/
structure Ejecucion where
  nombre : String
  workspace : String
  fecha : Nat
  inicio : Nat
  fin : Nat
  periodo : String
deriving DecidableEq, Repr

/-- `df['Periodo'] = df['Inicio'].dt.hour.apply(lambda x: 'AM' if x < 12 else 'PM')`
(line 66): the AM/PM bucket of an absolute timestamp, from its hour. -/
def periodoDe (t : Nat) : String :=
  if t % 1440 / 60 < 12 then "AM" else "PM"

/-- Lines 58-69: build `Inicio = fecha + hora inicio` and `Fin = fecha + hora fin`;
either combination fails (`NaT`) when the date or the time string failed to
parse, and `dropna(subset=['Inicio','Fin'])` then drops the row. -/
def parseFila (r : Fila) : Option Ejecucion :=
  match r.fecha, r.horaInicio, r.horaFin with
  | some d, some hi, some hf =>
      some ⟨r.nombre, r.workspace, d, d * 1440 + hi, d * 1440 + hf,
            periodoDe (d * 1440 + hi)⟩
  | _, _, _ => none

/-- The Interval Normalizer: parse every row, keep exactly the rows whose
`Inicio` and `Fin` both resolved (lines 58-69). -/
def normalizar (filas : List Fila) : List Ejecucion :=
  filas.filterMap parseFila

/-- Code-point comparison of two character lists: pandas/numpy sorts string
columns lexicographically by code points. -/
def cmpCadena : List Char → List Char → Ordering
  | [], [] => Ordering.eq
  | [], _ :: _ => Ordering.lt
  | _ :: _, [] => Ordering.gt
  | a :: as, b :: bs =>
      if a.toNat < b.toNat then Ordering.lt
      else if b.toNat < a.toNat then Ordering.gt
      else cmpCadena as bs

lemma cmpCadena_swap : ∀ as bs, cmpCadena bs as = (cmpCadena as bs).swap
  | [], [] => rfl
  | [], _ :: _ => rfl
  | _ :: _, [] => rfl
  | a :: as, b :: bs => by
      rcases Nat.lt_trichotomy a.toNat b.toNat with h | h | h
      · simp [cmpCadena, h, Nat.lt_asymm h, Ordering.swap]
      · simp [cmpCadena, h, cmpCadena_swap as bs]
      · simp [cmpCadena, h, Nat.lt_asymm h, Ordering.swap]

lemma eq_of_cmpCadena_eq : ∀ as bs, cmpCadena as bs = Ordering.eq → as = bs
  | [], [], _ => rfl
  | [], _ :: _, h => by simp [cmpCadena] at h
  | _ :: _, [], h => by simp [cmpCadena] at h
  | a :: as, b :: bs, h => by
      rcases Nat.lt_trichotomy a.toNat b.toNat with hc | hc | hc
      · simp [cmpCadena, hc] at h
      · have ha : a = b := Char.eq_of_val_eq (UInt32.ext hc)
        subst ha
        simp [cmpCadena] at h
        exact congrArg (List.cons a) (eq_of_cmpCadena_eq as bs h)
      · simp [cmpCadena, hc, Nat.lt_asymm hc] at h

lemma cmpCadena_lt_trans :
    ∀ as bs cs, cmpCadena as bs = Ordering.lt → cmpCadena bs cs = Ordering.lt →
      cmpCadena as cs = Ordering.lt
  | [], [], _, h1, _ => by simp [cmpCadena] at h1
  | [], _ :: _, [], _, h2 => by simp [cmpCadena] at h2
  | [], _ :: _, _ :: _, _, _ => rfl
  | _ :: _, [], _, h1, _ => by simp [cmpCadena] at h1
  | _ :: _, _ :: _, [], _, h2 => by simp [cmpCadena] at h2
  | a :: as, b :: bs, c :: cs, h1, h2 => by
      simp only [cmpCadena] at h1 h2 ⊢
      rcases Nat.lt_trichotomy a.toNat b.toNat with hab | hab | hab
      · rcases Nat.lt_trichotomy b.toNat c.toNat with hbc | hbc | hbc
        · rw [if_pos (show a.toNat < c.toNat by omega)]
        · rw [if_pos (show a.toNat < c.toNat by omega)]
        · rw [if_neg (Nat.lt_asymm hbc), if_pos hbc] at h2
          exact absurd h2 (by simp)
      · rcases Nat.lt_trichotomy b.toNat c.toNat with hbc | hbc | hbc
        · rw [if_pos (show a.toNat < c.toNat by omega)]
        · rw [hab] at h1 ⊢
          rw [hbc] at h1 h2 ⊢
          rw [if_neg (Nat.lt_irrefl _), if_neg (Nat.lt_irrefl _)] at h1 h2 ⊢
          exact cmpCadena_lt_trans as bs cs h1 h2
        · rw [if_neg (Nat.lt_asymm hbc), if_pos hbc] at h2
          exact absurd h2 (by simp)
      · rw [if_neg (Nat.lt_asymm hab), if_pos hab] at h1
        exact absurd h1 (by simp)

/-- The sort key of `df.sort_values(by=['fecha', 'Workspace', 'Inicio'])`
(line 76): lexicographic on (date, workspace code points, start). -/
def leFila (a b : Ejecucion) : Prop :=
  a.fecha < b.fecha ∨
    (a.fecha = b.fecha ∧
      (cmpCadena a.workspace.data b.workspace.data = Ordering.lt ∨
        (a.workspace = b.workspace ∧ a.inicio ≤ b.inicio)))

instance : DecidableRel leFila := by
  intro a b
  unfold leFila
  infer_instance

instance : IsTotal Ejecucion leFila := by
  constructor
  intro a b
  rcases Nat.lt_trichotomy a.fecha b.fecha with h | h | h
  · exact Or.inl (Or.inl h)
  · cases hcmp : cmpCadena a.workspace.data b.workspace.data
    case lt => exact Or.inl (Or.inr ⟨h, Or.inl hcmp⟩)
    case eq =>
      have hws : a.workspace = b.workspace :=
        String.ext (eq_of_cmpCadena_eq _ _ hcmp)
      rcases Nat.le_total a.inicio b.inicio with hle | hle
      · exact Or.inl (Or.inr ⟨h, Or.inr ⟨hws, hle⟩⟩)
      · exact Or.inr (Or.inr ⟨h.symm, Or.inr ⟨hws.symm, hle⟩⟩)
    case gt =>
      have : cmpCadena b.workspace.data a.workspace.data = Ordering.lt := by
        rw [cmpCadena_swap, hcmp]
        rfl
      exact Or.inr (Or.inr ⟨h.symm, Or.inl this⟩)
  · exact Or.inr (Or.inl h)

instance : IsTrans Ejecucion leFila := by
  constructor
  intro a b c hab hbc
  rcases hab with h1 | ⟨e1, h1⟩
  · rcases hbc with h2 | ⟨e2, _⟩
    · exact Or.inl (Nat.lt_trans h1 h2)
    · exact Or.inl (e2 ▸ h1)
  · rcases hbc with h2 | ⟨e2, h2⟩
    · exact Or.inl (e1 ▸ h2)
    · refine Or.inr ⟨e1.trans e2, ?_⟩
      rcases h1 with hlt1 | ⟨eq1, le1⟩
      · rcases h2 with hlt2 | ⟨eq2, _⟩
        · exact Or.inl (cmpCadena_lt_trans _ _ _ hlt1 hlt2)
        · exact Or.inl (eq2 ▸ hlt1)
      · rcases h2 with hlt2 | ⟨eq2, le2⟩
        · exact Or.inl (eq1 ▸ hlt2)
        · exact Or.inr ⟨eq1.trans eq2, Nat.le_trans le1 le2⟩

/-- Line 76: `df = df.sort_values(by=['fecha', 'Workspace', 'Inicio'])`.
pandas sorts on several keys with `numpy.lexsort`, which is stable, so the
stable `insertionSort` models it. -/
def ordenarDF (l : List Ejecucion) : List Ejecucion :=
  List.insertionSort leFila l

/-- The sort key of `df_filtrado.sort_values('Inicio')` (line 348). -/
def leInicio (a b : Ejecucion) : Prop := a.inicio ≤ b.inicio

instance : DecidableRel leInicio := by
  intro a b
  unfold leInicio
  infer_instance

/-- Line 348: the overlap scan's input, the filtered subset sorted by start. -/
def ordenarInicio (l : List Ejecucion) : List Ejecucion :=
  List.insertionSort leInicio l

/-- Line 118: `df_dia = df[df['fecha'] == dia_sel]`. -/
def filtrarDia (d : Nat) (l : List Ejecucion) : List Ejecucion :=
  l.filter (fun e => e.fecha == d)

/-- Lines 125-133: the period selector keeps the AM rows, the PM rows, or
everything (`Todos`). -/
def filtrarPeriodo (sel : String) (l : List Ejecucion) : List Ejecucion :=
  if sel = "AM" then l.filter (fun e => e.periodo == "AM")
  else if sel = "PM" then l.filter (fun e => e.periodo == "PM")
  else l

/-- The filtered subset the view works on: normalize, sort the full dataset
(line 76), filter by day (line 118), then by period (lines 125-133). -/
def subconjunto (filas : List Fila) (d : Nat) (sel : String) : List Ejecucion :=
  filtrarPeriodo sel (filtrarDia d (ordenarDF (normalizar filas)))

/-- Helper for `groupby('Nombre Modelo Semántico').cumcount() + 1` (line 140):
`prev` holds the names of the rows already visited, so each row's ordinal is
one more than the number of earlier rows sharing its name. -/
def numEjecucionAux (prev : List String) : List Ejecucion → List (Ejecucion × Nat)
  | [] => []
  | e :: rest => (e, prev.count e.nombre + 1) :: numEjecucionAux (e.nombre :: prev) rest

/-- Line 140: `df_filtrado['num_ejecucion'] = df_filtrado.groupby('Nombre Modelo
Semántico').cumcount() + 1`: pair every row with its 1-based per-name ordinal. -/
def numEjecucion (l : List Ejecucion) : List (Ejecucion × Nat) :=
  numEjecucionAux [] l

/-- Lines 142-147: `crear_identificador` builds `"{Workspace} - {Nombre}"`,
adding `" (Ej. {num_ejecucion})"` when the name occurs more than once in the
filtered subset. -/
def crearIdentificador (sub : List Ejecucion) (e : Ejecucion) (n : Nat) : String :=
  if 1 < (sub.filter (fun x => x.nombre == e.nombre)).length then
    e.workspace ++ " - " ++ e.nombre ++ " (Ej. " ++ toString n ++ ")"
  else
    e.workspace ++ " - " ++ e.nombre

/-- Lines 152-171: `asignar_categoria_color`, a pure function of the workspace
and the ordinal. -/
def asignarCategoriaColor (workspace : String) (n : Nat) : String :=
  if workspace = "MAM" then
    if n = 1 then "MAM - 1ra ejecución"
    else if n = 2 then "MAM - 2da ejecución"
    else "MAM - 3ra+ ejecución"
  else if workspace = "MAC" then
    if n = 1 then "MAC - 1ra ejecución"
    else if n = 2 then "MAC - 2da ejecución"
    else "MAC - 3ra+ ejecución"
  else workspace

/-- One entry of the `traslapes` list (lines 355-362). -/
structure Traslape where
  modelo1 : String
  ws1 : String
  modelo2 : String
  ws2 : String
  inicioT : Nat
  finT : Nat
deriving DecidableEq, Repr

/-- The record appended at lines 355-362: names and workspaces of the two rows,
`Inicio = fila_siguiente['Inicio']`, `Fin = min(fila_actual['Fin'],
fila_siguiente['Fin'])`. -/
def mkTraslape (a b : Ejecucion) : Traslape :=
  ⟨a.nombre, a.workspace, b.nombre, b.workspace, b.inicio, min a.fin b.fin⟩

/-- Lines 350-362: the adjacent-pair scan over the start-sorted rows; a pair is
emitted when `fila_actual['Fin'] > fila_siguiente['Inicio']`. -/
def traslapesAux : List Ejecucion → List Traslape
  | a :: b :: rest =>
      (if b.inicio < a.fin then [mkTraslape a b] else []) ++ traslapesAux (b :: rest)
  | _ => []

/-- Lines 347-362: sort the filtered subset by `Inicio`, then run the
adjacent-pair scan. -/
def traslapes (l : List Ejecucion) : List Traslape :=
  traslapesAux (ordenarInicio l)

/-- Line 309: `(Fin - Inicio).dt.total_seconds() / 60`, the signed duration of
a row in minutes. -/
def duracion (e : Ejecucion) : Int :=
  (e.fin : Int) - (e.inicio : Int)

/-- Lines 323-324 / 336-337: the duration column restricted to one workspace. -/
def duracionesWs (l : List Ejecucion) (ws : String) : List Int :=
  (l.filter (fun e => e.workspace == ws)).map duracion

/-- Line 87: `count = len(df[df['Workspace'] == ws])`. -/
def conteoWs (l : List Ejecucion) (ws : String) : Nat :=
  (l.filter (fun e => e.workspace == ws)).length

/-- Line 88: `porcentaje = (count / len(df)) * 100`. -/
def porcentajeWs (l : List Ejecucion) (ws : String) : ℚ :=
  ((conteoWs l ws : ℚ) / (l.length : ℚ)) * 100

/-- Line 328 / 341: `duraciones.sum()`, in minutes. -/
def sumaDuracion (l : List Ejecucion) (ws : String) : ℚ :=
  ((duracionesWs l ws).map (fun d : Int => (d : ℚ))).sum

/-- Line 327 / 340: `duraciones.mean()`, in minutes. -/
def promedioDuracion (l : List Ejecucion) (ws : String) : ℚ :=
  sumaDuracion l ws / (conteoWs l ws : ℚ)

/-- Everything the view derives from one filtered subset: the sequenced rows
(line 140), the display identifiers (line 149), the color categories
(line 173), the overlap list (lines 347-362) and the per-workspace duration
metrics of the MAM/MAC tabs (lines 319-341). -/
structure Salida where
  tabla : List (Ejecucion × Nat)
  identificadores : List String
  categorias : List String
  solapes : List Traslape
  conteoMAM : Nat
  promMAM : ℚ
  sumaMAM : ℚ
  conteoMAC : Nat
  promMAC : ℚ
  sumaMAC : ℚ
deriving DecidableEq, Repr

/-- The derived outputs computed from a filtered subset. -/
def salidaDe (s : List Ejecucion) : Salida :=
  ⟨numEjecucion s,
   (numEjecucion s).map (fun p => crearIdentificador s p.1 p.2),
   (numEjecucion s).map (fun p => asignarCategoriaColor p.1.workspace p.2),
   traslapes s,
   conteoWs s "MAM", promedioDuracion s "MAM", sumaDuracion s "MAM",
   conteoWs s "MAC", promedioDuracion s "MAC", sumaDuracion s "MAC"⟩

/-- The full pipeline: raw rows, one day selection and one period selection in,
derived outputs out. -/
def resultado (filas : List Fila) (d : Nat) (sel : String) : Salida :=
  salidaDe (subconjunto filas d sel)

/-! ### Concrete rows used by the example parts of the claims -/

/-- 08:00-09:00 on day 0 (spec §8, overlap boundary example, interval A). -/
def ejA8a9 : Ejecucion := ⟨"A", "MAM", 0, 480, 540, "AM"⟩

/-- 08:30-09:30 on day 0 (spec §8, overlap boundary example, interval B). -/
def ejB830a930 : Ejecucion := ⟨"B", "MAM", 0, 510, 570, "AM"⟩

/-- 09:00-10:00 on day 0 (spec §8, touching-intervals example). -/
def ejB9a10 : Ejecucion := ⟨"B", "MAM", 0, 540, 600, "AM"⟩

/-- Long-running 08:00-10:00 execution (spec §4.3 missed-overlap scenario). -/
def ejLargaA : Ejecucion := ⟨"A", "MAM", 0, 480, 600, "AM"⟩

/-- 08:10-08:20 execution nested inside `ejLargaA`. -/
def ejAnidadaB : Ejecucion := ⟨"B", "MAM", 0, 490, 500, "AM"⟩

/-- 08:30-09:00 execution, two positions after `ejLargaA` by start time. -/
def ejTardiaC : Ejecucion := ⟨"C", "MAM", 0, 510, 540, "AM"⟩

/-! ### Claim C1: the adjacent-pair overlap scan -/

/-- Restatement of §4.3 of the spec: walking positions `i`, `i+1` of the sorted
list, emit a pair exactly when `interval[i].end > interval[i+1].start`, with
`overlap_start = interval[i+1].start` and
`overlap_end = min(interval[i].end, interval[i+1].end)`. -/
def traslapesAdyacentes (s : List Ejecucion) : List Traslape :=
  (s.zip s.tail).filterMap
    (fun p => if p.2.inicio < p.1.fin then some (mkTraslape p.1 p.2) else none)

lemma traslapesAux_eq_adyacentes : ∀ s, traslapesAux s = traslapesAdyacentes s
  | [] => rfl
  | [_] => rfl
  | a :: b :: rest => by
      have ih := traslapesAux_eq_adyacentes (b :: rest)
      by_cases h : b.inicio < a.fin <;>
        simp [traslapesAux, traslapesAdyacentes, List.filterMap_cons, h] <;>
        simpa [traslapesAdyacentes] using ih

/-- Claim C1: on the start-sorted filtered subset the detector emits, for each
adjacent position pair `i`, `i+1`, one `OverlapPair` exactly when
`interval[i].end > interval[i+1].start` (strict, so touching intervals emit
nothing), with `overlap_start = interval[i+1].start` and
`overlap_end = min(interval[i].end, interval[i+1].end)`; in particular
A (08:00-09:00) and B (08:30-09:30) yield exactly one pair with overlap
08:30-09:00, and A (08:00-09:00) with B (09:00-10:00) yields none. -/
theorem traslapes_caracterizacion :
    (∀ l : List Ejecucion, traslapes l = traslapesAdyacentes (ordenarInicio l)) ∧
    traslapes [ejA8a9, ejB830a930] = [⟨"A", "MAM", "B", "MAM", 510, 540⟩] ∧
    traslapes [ejA8a9, ejB9a10] = [] :=
  ⟨fun _ => traslapesAux_eq_adyacentes _, by decide, by decide⟩

/-! ### Claim C2: only adjacent pairs are reported -/

lemma traslapesAux_mem : ∀ (s : List Ejecucion) (t : Traslape), t ∈ traslapesAux s →
    ∃ i a b, s[i]? = some a ∧ s[i + 1]? = some b ∧ b.inicio < a.fin ∧ t = mkTraslape a b
  | [], t, ht => absurd ht (by simp [traslapesAux])
  | [_], t, ht => absurd ht (by simp [traslapesAux])
  | a :: b :: rest, t, ht => by
      rcases List.mem_append.mp ht with h | h
      · by_cases hc : b.inicio < a.fin
        · rw [if_pos hc] at h
          exact ⟨0, a, b, by simp, by simp, hc, (List.mem_singleton.mp h).symm ▸ rfl⟩
        · rw [if_neg hc] at h
          exact absurd h (List.not_mem_nil t)
      · obtain ⟨i, x, y, h1, h2, hc, heq⟩ := traslapesAux_mem (b :: rest) t h
        exact ⟨i + 1, x, y, by simpa using h1, by simpa using h2, hc, heq⟩

/-- Claim C2: every emitted pair comes from two adjacent positions of the
start-sorted subset; consequently in the concrete scenario where long-running A
(08:00-10:00) overlaps C (08:30-09:00) two positions later, with B
(08:10-08:20) nested inside A, no pair relating A and C is emitted. -/
theorem traslapes_solo_adyacentes :
    (∀ (l : List Ejecucion) (t : Traslape), t ∈ traslapes l →
       ∃ i a b, (ordenarInicio l)[i]? = some a ∧ (ordenarInicio l)[i + 1]? = some b ∧
         b.inicio < a.fin ∧ t = mkTraslape a b) ∧
    (traslapes [ejLargaA, ejAnidadaB, ejTardiaC] = [mkTraslape ejLargaA ejAnidadaB] ∧
     ejLargaA.inicio ≤ ejTardiaC.inicio ∧ ejTardiaC.inicio < ejLargaA.fin ∧
     ∀ t ∈ traslapes [ejLargaA, ejAnidadaB, ejTardiaC],
       ¬(t.modelo1 = "A" ∧ t.modelo2 = "C")) :=
  ⟨fun _ t ht => traslapesAux_mem _ t ht, by decide, by decide, by decide, by decide⟩

/-- Witness for C2: the pair emitted for adjacent A and B in the missed-overlap
scenario is indeed located at adjacent positions of the sorted list. -/
theorem traslapes_solo_adyacentes_witness :
    ∃ i a b, (ordenarInicio [ejLargaA, ejAnidadaB, ejTardiaC])[i]? = some a ∧
      (ordenarInicio [ejLargaA, ejAnidadaB, ejTardiaC])[i + 1]? = some b ∧
      b.inicio < a.fin ∧ mkTraslape ejLargaA ejAnidadaB = mkTraslape a b :=
  traslapes_solo_adyacentes.1 [ejLargaA, ejAnidadaB, ejTardiaC]
    (mkTraslape ejLargaA ejAnidadaB) (by decide)

/-! ### Claim C3: ordinal totality -/

/-- The ordinals handed to the rows of one workload name, in row order. -/
def ordinalesDe (l : List (Ejecucion × Nat)) (nombre : String) : List Nat :=
  (l.filter (fun p => p.1.nombre == nombre)).map Prod.snd

lemma numEjecucionAux_map_fst :
    ∀ (l : List Ejecucion) (prev : List String),
      (numEjecucionAux prev l).map Prod.fst = l
  | [], _ => rfl
  | e :: rest, prev => by
      simp [numEjecucionAux, numEjecucionAux_map_fst rest]

lemma ordinalesDe_numEjecucionAux :
    ∀ (l : List Ejecucion) (prev : List String) (nombre : String),
      ordinalesDe (numEjecucionAux prev l) nombre =
        List.range' (prev.count nombre + 1) (l.countP (fun e => e.nombre == nombre))
  | [], prev, nombre => by simp [numEjecucionAux, ordinalesDe]
  | e :: rest, prev, nombre => by
      have ih := ordinalesDe_numEjecucionAux rest (e.nombre :: prev) nombre
      by_cases h : e.nombre = nombre
      · subst h
        rw [List.count_cons_self] at ih
        simp [numEjecucionAux, ordinalesDe, List.filter_cons, List.countP_cons,
          List.range'_succ] at ih ⊢
        exact ih
      · have hne : nombre ≠ e.nombre := fun hc => h hc.symm
        rw [List.count_cons_of_ne hne] at ih
        simp [numEjecucionAux, ordinalesDe, List.filter_cons, List.countP_cons, h] at ih ⊢
        exact ih

/-- Claim C3: for every workload name occurring `k` times in the filtered
subset the sequencer hands out the ordinals exactly `1, ..., k`, each exactly
once; and every row of the subset receives exactly one ordinal (the pairing
keeps the rows unchanged). -/
theorem ordinales_totales :
    (∀ (l : List Ejecucion) (nombre : String),
       ordinalesDe (numEjecucion l) nombre =
         List.range' 1 (l.countP (fun e => e.nombre == nombre))) ∧
    (∀ l : List Ejecucion, (numEjecucion l).map Prod.fst = l) :=
  ⟨fun l nombre => by
      simpa using ordinalesDe_numEjecucionAux l [] nombre,
   fun l => numEjecucionAux_map_fst l []⟩

/-! ### Claim C10: ordinals are keyed by workload name alone -/

/-- The ordinal sequence computed from the name column alone. -/
def ordinalesPorNombreAux (prev : List String) : List String → List Nat
  | [] => []
  | s :: rest => (prev.count s + 1) :: ordinalesPorNombreAux (s :: prev) rest

/-- The ordinal sequence is a function of the `workload_name` column only. -/
def ordinalesPorNombre (nombres : List String) : List Nat :=
  ordinalesPorNombreAux [] nombres

lemma numEjecucionAux_map_snd :
    ∀ (l : List Ejecucion) (prev : List String),
      (numEjecucionAux prev l).map Prod.snd =
        ordinalesPorNombreAux prev (l.map (fun e => e.nombre))
  | [], _ => rfl
  | e :: rest, prev => by
      simp [numEjecucionAux, ordinalesPorNombreAux, numEjecucionAux_map_snd rest]

/-- Raw row: workload "X" under workspace MAC, 08:00-08:30 on day 0. -/
def filaXMac : Fila := ⟨"X", "MAC", some 0, some 480, some 510⟩

/-- Raw row: workload "X" under workspace MAM, 08:40-08:50 on day 0. -/
def filaXMam : Fila := ⟨"X", "MAM", some 0, some 520, some 530⟩

/-- Normalized form of `filaXMac`. -/
def ejXMac : Ejecucion := ⟨"X", "MAC", 0, 480, 510, "AM"⟩

/-- Normalized form of `filaXMam`. -/
def ejXMam : Ejecucion := ⟨"X", "MAM", 0, 520, 530, "AM"⟩

/-- Claim C10: ordinals are computed per workload name alone, not per
(workspace, name): the ordinal column is a function of the name column only,
and in a subset where "X" runs once under MAC and once under MAM, the MAM row
— MAM's only run of "X" — receives ordinal 2 and the second-run category. -/
theorem ordinales_solo_por_nombre :
    (∀ l : List Ejecucion,
       (numEjecucion l).map Prod.snd = ordinalesPorNombre (l.map (fun e => e.nombre))) ∧
    subconjunto [filaXMac, filaXMam] 0 "Todos" = [ejXMac, ejXMam] ∧
    numEjecucion [ejXMac, ejXMam] = [(ejXMac, 1), (ejXMam, 2)] ∧
    ((subconjunto [filaXMac, filaXMam] 0 "Todos").filter
        (fun e => e.workspace == "MAM" && e.nombre == "X")).length = 1 ∧
    (resultado [filaXMac, filaXMam] 0 "Todos").categorias =
      ["MAC - 1ra ejecución", "MAM - 2da ejecución"] :=
  ⟨fun l => numEjecucionAux_map_snd l [], by decide, by decide, by decide, by decide⟩

/-! ### Claim C4: ordinal assignment order = sort-then-filter = filter-then-sort -/

lemma orderedInsert_eq_cons {x : Ejecucion} :
    ∀ {s : List Ejecucion}, (∀ z ∈ s, leFila x z) →
      List.orderedInsert leFila x s = x :: s
  | [], _ => rfl
  | y :: ys, h => by
      rw [List.orderedInsert, if_pos (h y (List.mem_cons_self y ys))]

lemma filter_orderedInsert (p : Ejecucion → Bool) (x : Ejecucion) :
    ∀ (s : List Ejecucion), List.Sorted leFila s →
      (List.orderedInsert leFila x s).filter p =
        if p x then List.orderedInsert leFila x (s.filter p) else s.filter p
  | [], _ => by
      by_cases hx : p x <;> simp [hx]
  | y :: ys, hs => by
      have ih := filter_orderedInsert p x ys hs.of_cons
      by_cases hxy : leFila x y
      · rw [List.orderedInsert, if_pos hxy]
        by_cases hx : p x
        · rw [if_pos hx]
          by_cases hy : p y
          · rw [List.filter_cons_of_pos hx, List.filter_cons_of_pos hy,
              List.orderedInsert, if_pos hxy]
          · have hall : ∀ z ∈ ys.filter p, leFila x z := by
              intro z hz
              exact IsTrans.trans x y z hxy
                (List.rel_of_sorted_cons hs z (List.mem_of_mem_filter hz))
            rw [List.filter_cons_of_pos hx, List.filter_cons_of_neg hy,
              orderedInsert_eq_cons hall]
        · rw [if_neg hx, List.filter_cons_of_neg hx]
      · rw [List.orderedInsert, if_neg hxy]
        by_cases hy : p y
        · rw [List.filter_cons_of_pos hy, List.filter_cons_of_pos hy, ih]
          by_cases hx : p x
          · rw [if_pos hx, if_pos hx, List.orderedInsert, if_neg hxy]
          · rw [if_neg hx, if_neg hx]
        · rw [List.filter_cons_of_neg hy, List.filter_cons_of_neg hy, ih]

lemma filter_ordenarDF (p : Ejecucion → Bool) :
    ∀ l : List Ejecucion, (ordenarDF l).filter p = ordenarDF (l.filter p)
  | [] => rfl
  | x :: xs => by
      have ih := filter_ordenarDF p xs
      show (List.orderedInsert leFila x (List.insertionSort leFila xs)).filter p = _
      rw [filter_orderedInsert p x _ (List.sorted_insertionSort leFila xs)]
      have ih' : (List.insertionSort leFila xs).filter p =
          List.insertionSort leFila (xs.filter p) := ih
      by_cases hx : p x
      · rw [if_pos hx, List.filter_cons_of_pos hx, ih']
        rfl
      · rw [if_neg hx, List.filter_cons_of_neg hx]
        exact ih

lemma filtrarDia_ordenarDF (d : Nat) (l : List Ejecucion) :
    filtrarDia d (ordenarDF l) = ordenarDF (filtrarDia d l) :=
  filter_ordenarDF _ l

lemma filtrarPeriodo_ordenarDF (sel : String) (l : List Ejecucion) :
    filtrarPeriodo sel (ordenarDF l) = ordenarDF (filtrarPeriodo sel l) := by
  unfold filtrarPeriodo
  by_cases h1 : sel = "AM"
  · rw [if_pos h1, if_pos h1]
    exact filter_ordenarDF _ l
  · rw [if_neg h1, if_neg h1]
    by_cases h2 : sel = "PM"
    · rw [if_pos h2, if_pos h2]
      exact filter_ordenarDF _ l
    · rw [if_neg h2, if_neg h2]

/-- Claim C4: the filtered subset the sequencer iterates over is the same list
whether the whole dataset is sorted by (date, workspace, start) before
filtering — what the code does — or the filtered subset is sorted afterwards —
what the spec describes — because filtering a stably sorted list preserves
relative order; hence the per-name ordinals are assigned in that common
order. -/
theorem orden_estable_conmuta_filtros :
    (∀ (filas : List Fila) (d : Nat) (sel : String),
       subconjunto filas d sel =
         ordenarDF (filtrarPeriodo sel (filtrarDia d (normalizar filas))) ∧
       numEjecucion (subconjunto filas d sel) =
         numEjecucion (ordenarDF (filtrarPeriodo sel (filtrarDia d (normalizar filas))))) ∧
    (∀ l : List Ejecucion, List.Sorted leFila (ordenarDF l)) ∧
    (∀ (l : List Ejecucion) (a b : Ejecucion), leFila a b →
       List.Sublist [a, b] l → List.Sublist [a, b] (ordenarDF l)) := by
  refine ⟨fun filas d sel => ?_, fun l => List.sorted_insertionSort leFila l,
    fun l a b hab hsub => List.pair_sublist_insertionSort hab hsub⟩
  have h : subconjunto filas d sel =
      ordenarDF (filtrarPeriodo sel (filtrarDia d (normalizar filas))) := by
    unfold subconjunto
    rw [filtrarDia_ordenarDF, filtrarPeriodo_ordenarDF]
  exact ⟨h, congrArg numEjecucion h⟩

/-- Witness for C4: two tied-key rows keep their original relative order
through the sort. -/
theorem orden_estable_conmuta_filtros_witness :
    List.Sublist [ejXMac, ejXMam] (ordenarDF [ejXMac, ejXMam]) :=
  orden_estable_conmuta_filtros.2.2 [ejXMac, ejXMam] ejXMac ejXMam (by decide)
    (List.Sublist.refl _)

/-! ### Claim C5: category coverage -/

/-- The six category labels of the two known workspaces (lines 156-169). -/
def seisEtiquetas : List String :=
  ["MAM - 1ra ejecución", "MAM - 2da ejecución", "MAM - 3ra+ ejecución",
   "MAC - 1ra ejecución", "MAC - 2da ejecución", "MAC - 3ra+ ejecución"]

/-- Claim C5: every sequenced execution gets exactly one category; for
workspace MAM or MAC it is one of the six labels, determined by the ordinal
(1 ↦ first-run label, 2 ↦ second-run label, ≥ 3 ↦ third-or-later label); for
any other workspace the category is the workspace string unchanged. -/
theorem categoria_cubierta :
    (∀ (ws : String) (n : Nat),
       ((ws = "MAM" ∨ ws = "MAC") →
          asignarCategoriaColor ws n ∈ seisEtiquetas ∧
          (n = 1 → asignarCategoriaColor ws n = ws ++ " - 1ra ejecución") ∧
          (n = 2 → asignarCategoriaColor ws n = ws ++ " - 2da ejecución") ∧
          (3 ≤ n → asignarCategoriaColor ws n = ws ++ " - 3ra+ ejecución")) ∧
       (ws ≠ "MAM" → ws ≠ "MAC" → asignarCategoriaColor ws n = ws)) ∧
    (∀ l : List Ejecucion,
       ((numEjecucion l).map (fun p => asignarCategoriaColor p.1.workspace p.2)).length
         = l.length) := by
  refine ⟨fun ws n => ⟨?_, ?_⟩, fun l => ?_⟩
  · rintro (rfl | rfl) <;>
      refine ⟨?_, fun hn => by subst hn; decide, fun hn => by subst hn; decide, fun hn => ?_⟩
    · unfold asignarCategoriaColor seisEtiquetas
      split_ifs <;> simp_all
    · unfold asignarCategoriaColor
      rw [if_pos rfl, if_neg (by omega), if_neg (by omega)]
      decide
    · unfold asignarCategoriaColor seisEtiquetas
      split_ifs <;> simp_all
    · unfold asignarCategoriaColor
      rw [if_neg (by decide), if_pos rfl, if_neg (by omega), if_neg (by omega)]
      decide
  · intro h1 h2
    unfold asignarCategoriaColor
    rw [if_neg h1, if_neg h2]
  · rw [List.length_map]
    have h := congrArg List.length (numEjecucionAux_map_fst l [])
    rw [List.length_map] at h
    exact h

/-- Witness for C5 at workspace MAM with ordinal 1, and at an unknown
workspace. -/
theorem categoria_cubierta_witness :
    asignarCategoriaColor "MAM" 1 ∈ seisEtiquetas ∧
      asignarCategoriaColor "OTRO" 5 = "OTRO" :=
  ⟨((categoria_cubierta.1 "MAM" 1).1 (Or.inl rfl)).1,
   (categoria_cubierta.1 "OTRO" 5).2 (by decide) (by decide)⟩

/-! ### Claim C6: the display identifier and its disambiguation suffix -/

lemma append_ne_of_len_pos {s t : String} (h : 0 < t.length) : s ++ t ≠ s := by
  intro heq
  have hlen := congrArg String.length heq
  rw [String.length_append] at hlen
  omega

/-- Raw row: workload "X" on day 0. -/
def filaXdia0 : Fila := ⟨"X", "MAM", some 0, some 480, some 510⟩

/-- Raw row: the same workload "X" on day 1. -/
def filaXdia1 : Fila := ⟨"X", "MAM", some 1, some 480, some 510⟩

/-- Claim C6: the display identifier is `"{workspace} - {workload_name}"`, and
it carries the suffix `" (Ej. {ordinal})"` exactly when the workload name
occurs more than once in the currently filtered subset; in particular a name
occurring twice in the whole dataset but once on the selected day gets no
suffix. -/
theorem identificador_sufijo :
    (∀ (sub : List Ejecucion) (e : Ejecucion) (n : Nat),
       crearIdentificador sub e n =
         (e.workspace ++ " - " ++ e.nombre) ++
           (if 1 < (sub.filter (fun x => x.nombre == e.nombre)).length then
             " (Ej. " ++ toString n ++ ")" else "")) ∧
    (∀ (sub : List Ejecucion) (e : Ejecucion) (n : Nat),
       crearIdentificador sub e n = e.workspace ++ " - " ++ e.nombre ↔
         ¬ 1 < (sub.filter (fun x => x.nombre == e.nombre)).length) ∧
    (resultado [filaXdia0, filaXdia1] 0 "Todos").identificadores = ["MAM - X"] := by
  have hbase : ∀ (sub : List Ejecucion) (e : Ejecucion) (n : Nat),
      crearIdentificador sub e n =
        (e.workspace ++ " - " ++ e.nombre) ++
          (if 1 < (sub.filter (fun x => x.nombre == e.nombre)).length then
            " (Ej. " ++ toString n ++ ")" else "") := by
    intro sub e n
    unfold crearIdentificador
    by_cases hc : 1 < (sub.filter (fun x => x.nombre == e.nombre)).length
    · rw [if_pos hc, if_pos hc]
      simp [String.append_assoc]
    · rw [if_neg hc, if_neg hc]
      simp
  refine ⟨hbase, fun sub e n => ?_, by decide⟩
  rw [hbase]
  by_cases hc : 1 < (sub.filter (fun x => x.nombre == e.nombre)).length
  · rw [if_pos hc]
    constructor
    · intro heq
      exfalso
      refine append_ne_of_len_pos ?_ heq
      rw [String.length_append, String.length_append]
      have h1 : (" (Ej. " : String).length = 6 := rfl
      have h2 : (")" : String).length = 1 := rfl
      omega
    · intro h
      exact absurd hc h
  · rw [if_neg hc]
    simp [hc]

/-! ### Claim C7: rows with unparsable fields are dropped, silently -/

/-- The validity test of a raw row: its date and both time strings parsed. -/
def filaValida (r : Fila) : Bool :=
  r.fecha.isSome && r.horaInicio.isSome && r.horaFin.isSome

/-- Raw row whose end-time string failed to parse. -/
def filaMala : Fila := ⟨"BAD", "MAM", some 0, some 480, none⟩

lemma parseFila_isSome (r : Fila) : (parseFila r).isSome = filaValida r := by
  rcases r with ⟨n, w, f, hi, hf⟩
  rcases f <;> rcases hi <;> rcases hf <;> rfl

lemma parseFila_none_of_invalida {r : Fila} (h : filaValida r = false) :
    parseFila r = none := by
  cases hp : parseFila r with
  | none => rfl
  | some v =>
      have hs := parseFila_isSome r
      rw [hp, h] at hs
      simp at hs

lemma normalizar_descarta (pre post : List Fila) {mala : Fila}
    (h : filaValida mala = false) :
    normalizar (pre ++ mala :: post) = normalizar (pre ++ post) := by
  unfold normalizar
  rw [List.filterMap_append, List.filterMap_append, List.filterMap_cons,
    parseFila_none_of_invalida h]

/-- Claim C7: normalization keeps exactly the rows whose date and both time
strings parsed; a row with an unparsable field is dropped and leaves every
derived output unchanged, without aborting; an empty result is an ordinary
value. -/
theorem normalizacion_descarta_invalidas :
    (∀ r : Fila, (parseFila r).isSome = filaValida r) ∧
    (∀ (pre post : List Fila) (mala : Fila), filaValida mala = false →
       normalizar (pre ++ mala :: post) = normalizar (pre ++ post)) ∧
    (∀ (pre post : List Fila) (mala : Fila) (d : Nat) (sel : String),
       filaValida mala = false →
       resultado (pre ++ mala :: post) d sel = resultado (pre ++ post) d sel) ∧
    normalizar [filaMala] = [] ∧
    resultado [filaMala] 0 "Todos" = resultado [] 0 "Todos" := by
  refine ⟨parseFila_isSome, fun pre post mala h => normalizar_descarta pre post h,
    fun pre post mala d sel h => ?_, by decide, ?_⟩
  · unfold resultado subconjunto
    rw [normalizar_descarta pre post h]
  · unfold resultado subconjunto
    rw [show normalizar [filaMala] = normalizar ([] : List Fila) from
      normalizar_descarta [] [] (by decide)]

/-- Witness for C7: dropping a concrete invalid row between two valid ones. -/
theorem normalizacion_descarta_invalidas_witness :
    normalizar ([filaXMac] ++ filaMala :: [filaXMam]) =
      normalizar ([filaXMac] ++ [filaXMam]) :=
  normalizacion_descarta_invalidas.2.1 [filaXMac] [filaXMam] filaMala (by decide)

/-! ### Claim C8: no start ≤ end invariant; negative durations reach the
aggregates -/

/-- Raw row that parses fine but ends before it starts: 10:00 - 08:00. -/
def filaNegativa : Fila := ⟨"NEG", "MAM", some 0, some 600, some 480⟩

/-- Normalized form of `filaNegativa`, with `fin < inicio`. -/
def ejNegativa : Ejecucion := ⟨"NEG", "MAM", 0, 600, 480, "AM"⟩

/-- Claim C8: a parsable row with end strictly before start is retained by
normalization and sequencing, and its negative duration of -120 minutes enters
the per-workspace mean and sum aggregates. -/
theorem sin_invariante_inicio_fin :
    parseFila filaNegativa = some ejNegativa ∧
    ejNegativa.fin < ejNegativa.inicio ∧
    subconjunto [filaNegativa] 0 "Todos" = [ejNegativa] ∧
    numEjecucion [ejNegativa] = [(ejNegativa, 1)] ∧
    duracion ejNegativa = -120 ∧
    (resultado [filaNegativa] 0 "Todos").sumaMAM = -120 ∧
    (resultado [filaNegativa] 0 "Todos").promMAM = -120 := by
  refine ⟨by decide, by decide, by decide, by decide, by decide, ?_, ?_⟩
  · show sumaDuracion (subconjunto [filaNegativa] 0 "Todos") "MAM" = -120
    rw [show subconjunto [filaNegativa] 0 "Todos" = [ejNegativa] from by decide]
    unfold sumaDuracion
    rw [show duracionesWs [ejNegativa] "MAM" = [-120] from by decide]
    norm_num
  · show promedioDuracion (subconjunto [filaNegativa] 0 "Todos") "MAM" = -120
    rw [show subconjunto [filaNegativa] 0 "Todos" = [ejNegativa] from by decide]
    unfold promedioDuracion sumaDuracion
    rw [show duracionesWs [ejNegativa] "MAM" = [-120] from by decide,
      show conteoWs [ejNegativa] "MAM" = 1 from by decide]
    norm_num

/-! ### Claim C9: per-workspace aggregates -/

/-- Three MAM executions lasting 30, 45 and 60 minutes, plus one MAC
execution, all on day 0. -/
def filasDemo : List Fila :=
  [⟨"D1", "MAM", some 0, some 480, some 510⟩,
   ⟨"D2", "MAM", some 0, some 520, some 565⟩,
   ⟨"D3", "MAM", some 0, some 580, some 640⟩,
   ⟨"D4", "MAC", some 0, some 700, some 710⟩]

/-- Claim C9: the aggregator reports, per workspace, the record count, the
percentage of the total, and the mean and sum of `(end - start)` durations in
minutes; for MAM durations [30, 45, 60] it reports count 3, mean 45.0, sum
135.0, and 75% of a 4-row dataset. -/
theorem agregados_por_workspace :
    (∀ (l : List Ejecucion) (ws : String), conteoWs l ws ≠ 0 →
       promedioDuracion l ws * (conteoWs l ws : ℚ) = sumaDuracion l ws) ∧
    (∀ (l : List Ejecucion) (ws : String),
       sumaDuracion l ws = ((l.filter (fun e => e.workspace == ws)).map
         (fun e => ((e.fin : ℚ) - (e.inicio : ℚ)))).sum) ∧
    (resultado filasDemo 0 "Todos").conteoMAM = 3 ∧
    (resultado filasDemo 0 "Todos").promMAM = 45 ∧
    (resultado filasDemo 0 "Todos").sumaMAM = 135 ∧
    porcentajeWs (ordenarDF (normalizar filasDemo)) "MAM" = 75 := by
  have hsub : subconjunto filasDemo 0 "Todos" =
      [⟨"D4", "MAC", 0, 700, 710, "AM"⟩, ⟨"D1", "MAM", 0, 480, 510, "AM"⟩,
       ⟨"D2", "MAM", 0, 520, 565, "AM"⟩, ⟨"D3", "MAM", 0, 580, 640, "AM"⟩] := by
    decide
  have hdur : duracionesWs
      [⟨"D4", "MAC", 0, 700, 710, "AM"⟩, ⟨"D1", "MAM", 0, 480, 510, "AM"⟩,
       ⟨"D2", "MAM", 0, 520, 565, "AM"⟩, ⟨"D3", "MAM", 0, 580, 640, "AM"⟩] "MAM" =
      [30, 45, 60] := by decide
  refine ⟨fun l ws h => ?_, fun l ws => ?_, by decide, ?_, ?_, ?_⟩
  · unfold promedioDuracion
    exact div_mul_cancel₀ _ (Nat.cast_ne_zero.mpr h)
  · simp only [sumaDuracion, duracionesWs, duracion, List.map_map]
    refine congrArg List.sum (List.map_congr_left fun e he => ?_)
    simp only [Function.comp_apply, duracion]
    push_cast
    try ring
  · show promedioDuracion (subconjunto filasDemo 0 "Todos") "MAM" = 45
    rw [hsub]
    unfold promedioDuracion sumaDuracion
    rw [hdur, show conteoWs
      [⟨"D4", "MAC", 0, 700, 710, "AM"⟩, ⟨"D1", "MAM", 0, 480, 510, "AM"⟩,
       ⟨"D2", "MAM", 0, 520, 565, "AM"⟩, ⟨"D3", "MAM", 0, 580, 640, "AM"⟩] "MAM" = 3
      from by decide]
    norm_num
  · show sumaDuracion (subconjunto filasDemo 0 "Todos") "MAM" = 135
    rw [hsub]
    unfold sumaDuracion
    rw [hdur]
    norm_num
  · unfold porcentajeWs
    rw [show conteoWs (ordenarDF (normalizar filasDemo)) "MAM" = 3 from by decide,
      show (ordenarDF (normalizar filasDemo)).length = 4 from by decide]
    norm_num

/-- Witness for C9: mean times count equals sum on a one-row MAM subset. -/
theorem agregados_por_workspace_witness :
    promedioDuracion [ejXMam] "MAM" * ((conteoWs [ejXMam] "MAM" : Nat) : ℚ) =
      sumaDuracion [ejXMam] "MAM" :=
  agregados_por_workspace.1 [ejXMam] "MAM" (by decide)

end Streamyanbal
